import Mathlib

/-!
Verification of the scheduling-IR subsystem declared in
`torch/csrc/jit/codegen/cuda/ir_interface_nodes.h`: scalar value wrappers
(Bool/Float/Half/Int), the `TensorView` facade with its compute-at fields and
`getComputeAtAxis` resolution, and the domain transforms (split/merge/reorder/
rFactor).  Method bodies that are only declared in the header (not defined in
the visible source) are modelled from the specification and marked as such in
their doc comments.
-/

namespace Fuser

/-- Role of one iteration axis (`IterType` in the IR): a plain iteration axis,
a reduction axis, or a broadcast axis. -/
inductive IterType where
  | Iteration
  | Reduction
  | Broadcast
deriving DecidableEq, Repr

/-- Memory placement tag of a `TensorView` (`MemoryType` in the IR). -/
inductive MemoryType where
  | Global
  | Shared
  | Local
deriving DecidableEq, Repr

/-- One axis of an iteration space: an extent and a role.  Extents are
modelled as natural numbers (the constant case of the scalar extent
expression); `IterDomain` objects are immutable, transforms build new ones. -/
structure IterDomain where
  extent : Nat
  itype : IterType
deriving DecidableEq, Repr

instance : Inhabited IterDomain := ⟨⟨0, IterType.Iteration⟩⟩

/-- Embeds the data members of `TensorView` (header lines 353-359) for a
fusion holding `n` TensorViews: the owned leaf domain, the non-owning
`compute_at_view_` reference (an index into the fusion, `none` = nullptr),
`relative_compute_at_axis_`, `this_compute_at_axis_` and `memory_type_`.
The default field values are exactly the in-class member initializers. -/
structure TensorView (n : Nat) where
  domain : List IterDomain
  compute_at_view : Option (Fin n) := none
  relative_compute_at_axis : Nat := 0
  this_compute_at_axis : Nat := 0
  memory_type : MemoryType := MemoryType.Global
deriving DecidableEq, Repr

namespace TensorView

variable {n : Nat}

/-- `TensorView::nDims()`: the length of the leaf domain. -/
def nDims (tv : TensorView n) : Nat := tv.domain.length

/-- `TensorView::axis(pos)`: the leaf IterDomain at position `pos`
(`none` when the position is out of range). -/
def axisAt (tv : TensorView n) (pos : Nat) : Option IterDomain := tv.domain.get? pos

/-- `TensorView::hasComputeAt()`: `compute_at_view_ != nullptr`. -/
def hasComputeAt (tv : TensorView n) : Bool := tv.compute_at_view.isSome

/-- `TensorView::getComputeAtView()`. -/
def getComputeAtView (tv : TensorView n) : Option (Fin n) := tv.compute_at_view

/-- `TensorView::getThisComputeAtAxis()`. -/
def getThisComputeAtAxis (tv : TensorView n) : Nat := tv.this_compute_at_axis

/-- `TensorView::getRelativeComputeAtAxis()`. -/
def getRelativeComputeAtAxis (tv : TensorView n) : Nat := tv.relative_compute_at_axis

/-- `TensorView::getMemoryType()`. -/
def getMemoryType (tv : TensorView n) : MemoryType := tv.memory_type

/-- Fresh construction of a `TensorView` from a domain: every other field
takes its in-class member-initializer value (header lines 353-359). -/
def newTensorView (n : Nat) (dom : List IterDomain) : TensorView n :=
  { domain := dom }

/-- `TensorView::clearComputeAt()` (header lines 262-266): resets
`this_compute_at_axis_`, `relative_compute_at_axis_` and `compute_at_view_`. -/
def clearComputeAt (tv : TensorView n) : TensorView n :=
  { tv with
    this_compute_at_axis := 0
    relative_compute_at_axis := 0
    compute_at_view := none }

/-- `TensorView::setMemoryType(mt)` (header lines 334-342).  The body first
assigns `memory_type_ = mt`, then computes `is_inp_or_out` from the fusion
membership queries (passed in as the two booleans) and raises
`TORCH_INTERNAL_ASSERT` when the tensor is an input or output and `mt` is not
`MemoryType::Global`.  The returned pair is the post-call state together with
`true` exactly when the assertion fires. -/
def setMemoryType (hasInput hasOutput : Bool) (tv : TensorView n)
    (mt : MemoryType) : TensorView n × Bool :=
  let tv2 : TensorView n := { tv with memory_type := mt }
  let is_inp_or_out := hasInput || hasOutput
  (tv2, is_inp_or_out && !(decide (mt = MemoryType.Global)))

end TensorView

/-- A fusion holding `n` TensorViews, addressed by index (the arena owns all
nodes; `compute_at_view_` pointers become indices). -/
structure FusionGraph (n : Nat) where
  tvs : Fin n → TensorView n

/-- Result of one `getComputeAtAxis` resolution: the returned
`(IterDomain*, TensorView*)` pair (the IterDomain is `axis(pos)`, which may
be out of range, and the owner index), the `TORCH_INTERNAL_ASSERT` failure on
a 0-dim TensorView, or fuel exhaustion (standing for a non-terminating chain
of recursive calls). -/
inductive CAResult (n : Nat) where
  | ok : Option IterDomain → Fin n → CAResult n
  | assertFail : CAResult n
  | outOfFuel : CAResult n
deriving DecidableEq, Repr

/-- Embeds `TensorView::getComputeAtAxis(pos)` (header lines 249-255):
assert `nDims() > 0`; if `!hasComputeAt() || getThisComputeAtAxis() <= pos`
return `(axis(pos), this)`; otherwise recurse into `compute_at_view_` at
position `getComputeAtRelPos(pos)`.  `getComputeAtRelPos` is private and its
body is not in the visible header, so it is passed in abstractly as `relPos`;
`fuel` bounds the recursion depth, `outOfFuel` marking a chain longer than
the fuel. -/
def getComputeAtAxis (sys : FusionGraph n) (relPos : Fin n → Nat → Nat) :
    Nat → Fin n → Nat → CAResult n
  | 0, _, _ => CAResult.outOfFuel
  | fuel + 1, i, pos =>
    let tv := sys.tvs i
    if tv.nDims = 0 then CAResult.assertFail
    else
      match tv.compute_at_view with
      | none => CAResult.ok (tv.axisAt pos) i
      | some j =>
        if tv.this_compute_at_axis ≤ pos then CAResult.ok (tv.axisAt pos) i
        else getComputeAtAxis sys relPos fuel j (relPos i pos)

/-- Ceiling division on natural numbers, used for the outer extent of a
split. -/
def ceilDiv (a b : Nat) : Nat := (a + b - 1) / b

namespace TensorDomain

/-- Modelled from the spec: the body of `TensorView::split` (and of the
`TensorDomain` transform it delegates to) is not under the visible header,
only its declaration (line 270).  Per the spec, `split(axis, factor)`
replaces the leaf IterDomain at `axis` with two new ones — outer with extent
`ceil(extent / factor)` and inner with extent `factor` — and fails if `axis`
is out of range or `factor ≤ 0` (`factor = 0` for an unsigned factor). -/
def split (td : List IterDomain) (axis factor : Nat) :
    Except String (List IterDomain) :=
  if factor = 0 then Except.error "Invalid factor for split"
  else if h : axis < td.length then
    let iD := td.get ⟨axis, h⟩
    Except.ok (td.take axis
      ++ ⟨ceilDiv iD.extent factor, iD.itype⟩ :: ⟨factor, iD.itype⟩
      :: td.drop (axis + 1))
  else Except.error "Split axis out of range"

/-- Modelled from the spec: the body of `TensorView::merge` is not under the
visible header, only its declaration (line 273).  Per the spec,
`merge(axis_o, axis_i)` combines two adjacent leaf IterDomains into one with
extent `outer.extent * inner.extent`; it fails if either index is out of
range, the pair is not adjacent in the current leaf order, or the roles are
incompatible (policy chosen here per the spec's open question: the roles must
be equal). -/
def merge (td : List IterDomain) (axis_o axis_i : Nat) :
    Except String (List IterDomain) :=
  if h : axis_o < td.length ∧ axis_i < td.length then
    if axis_i = axis_o + 1 then
      let o := td.get ⟨axis_o, h.left⟩
      let i := td.get ⟨axis_i, h.right⟩
      if o.itype = i.itype then
        Except.ok (td.take axis_o
          ++ ⟨o.extent * i.extent, o.itype⟩ :: td.drop (axis_i + 1))
      else Except.error "Merge roles incompatible"
    else Except.error "Merge axes must be adjacent"
  else Except.error "Merge axis out of range"

/-- First position in `[0, n)` that `old2new` maps to `j` (0 when none):
the preimage of target slot `j` under the reorder map. -/
def invIdx (old2new : Nat → Nat) (n j : Nat) : Nat :=
  (((List.range n).find? (fun i => decide (old2new i = j))).getD 0)

/-- The reorder map must be a bijection on `[0, nDims())`: every position is
mapped inside the range and no two positions collide. -/
def isPermOn (old2new : Nat → Nat) (n : Nat) : Bool :=
  decide (∀ i, i < n → old2new i < n)
    && decide (((List.range n).map old2new).Nodup)

/-- Modelled from the spec: the body of `TensorView::reorder` is not under
the visible header, only its declaration (line 281).  Per the spec,
`reorder(old2new)` permutes the current leaf domain only — the entry at old
position `i` moves to new position `old2new i` — and fails unless `old2new`
is a bijection on `[0, nDims())`. -/
def reorder (td : List IterDomain) (old2new : Nat → Nat) :
    Except String (List IterDomain) :=
  if isPermOn old2new td.length then
    Except.ok ((List.range td.length).map
      (fun j => td.getD (invIdx old2new td.length j) default))
  else Except.error "Reorder map must be a bijection on axis positions"

/-- One position of the producer domain built by `rFactor`: factored axes
keep their (Reduction) IterDomain, remaining reduction axes become Iteration
axes of the same extent, non-reduction axes are unchanged. -/
def rFactorEntry (td : List IterDomain) (axes : List Nat) (i : Nat) :
    IterDomain :=
  if i ∈ axes then td.getD i default
  else if (td.getD i default).itype = IterType.Reduction then
    ⟨(td.getD i default).extent, IterType.Iteration⟩
  else td.getD i default

/-- Modelled from the spec: the body of `TensorView::rFactor` is not under
the visible header, only its declaration (line 301) and the worked example in
its comment (lines 283-300).  Per the spec, `rFactor(axes)` produces the new
consumer leaf domain of `this` (keeping only the positions not in `axes`) and
the domain of the returned producer TensorView, which keeps every position:
the factored axes stay Reduction, the remaining reduction axes become
Iteration axes (the header's example turns `R2` into `I2`), and non-reduction
axes are unchanged.  It fails if `axes` is empty, any index is out of range,
or any referenced axis is not Reduction-role.  The result pair is
`(producer domain, new consumer leaf domain)`. -/
def rFactor (td : List IterDomain) (axes : List Nat) :
    Except String (List IterDomain × List IterDomain) :=
  if axes.isEmpty then Except.error "rFactor requires at least one axis"
  else if !(axes.all (fun a => decide (a < td.length))) then
    Except.error "rFactor axis out of range"
  else if !(axes.all (fun a =>
      decide ((td.getD a default).itype = IterType.Reduction))) then
    Except.error "rFactor axis must be a reduction axis"
  else
    Except.ok
      ((List.range td.length).map (rFactorEntry td axes),
        ((List.range td.length).filter (fun i => decide (i ∉ axes))).map
          (fun i => td.getD i default))

end TensorDomain

/-- A scalar value wrapper (`Bool`, `Float`, `Half`, `Int` in the header,
lines 24-170): an immutable, non-copyable node that is either symbolic
(`maybe_value_` empty) or a constant literal.  Identity of the single
allocation is modelled by the `id` field: distinct allocations carry
distinct ids. -/
structure ScalarVal (α : Type) where
  id : Nat
  maybe_value : Option α
deriving DecidableEq, Repr

namespace ScalarVal

/-- `isSymbolic()`: no literal value is attached. -/
def isSymbolic {α : Type} (v : ScalarVal α) : Bool := !v.maybe_value.isSome

/-- `isConst()`: a literal value is attached. -/
def isConst {α : Type} (v : ScalarVal α) : Bool := v.maybe_value.isSome

/-- `value()`: the optional literal. -/
def value {α : Type} (v : ScalarVal α) : Option α := v.maybe_value

/-- Modelled from the spec: the bodies of `Bool::sameAs` / `Float::sameAs` /
`Half::sameAs` / `Int::sameAs` are not under the visible header, only their
declarations (lines 51, 91, 129, 166).  Per the spec, two constants compare
equal exactly when their literal values are equal, and any comparison
involving a symbolic operand is identity of the single allocation (the
`this == other` pointer test, modelled by the `id` field). -/
def sameAs {α : Type} [DecidableEq α] (a b : ScalarVal α) : Bool :=
  if a.isConst && b.isConst then decide (a.maybe_value = b.maybe_value)
  else decide (a.id = b.id)

end ScalarVal

/-- Bounded reachability along compute-at edges: `caReach g fuel i j` holds
when some chain of at most `fuel` `compute_at_view_` edges leads from `i` to
`j` (including the empty chain). -/
def caReach (g : Fin n → Option (Fin n)) : Nat → Fin n → Fin n → Bool
  | 0, i, j => decide (i = j)
  | fuel + 1, i, j =>
    decide (i = j) ||
      match g i with
      | some k => caReach g fuel k j
      | none => false

/-- Modelled from the spec: `TensorView::computeAt` is only declared in the
header (line 260).  Per the spec it records the edge
`compute_at_view_ = consumer`, and fails if the axis exceeds `nDims()`, if
the positions are not dimensionally compatible between the two domains (that
compatibility check is kept abstract as `compat`), or if establishing the
edge would create a cycle in the compute-at graph.  The graph is the map
from each TensorView index to its `compute_at_view_`; on failure it is
returned unchanged inside the error. -/
def computeAtEdge (g : Fin n → Option (Fin n)) (nd : Fin n → Nat)
    (compat : Fin n → Fin n → Nat → Bool) (this_ consumer : Fin n)
    (axis : Nat) : Except String (Fin n → Option (Fin n)) :=
  if nd this_ < axis then Except.error "computeAt axis out of range"
  else if !(compat this_ consumer axis) then
    Except.error "Incompatible dimensions in computeAt"
  else if caReach g n consumer this_ then
    Except.error "Cycle detected in computeAt graph"
  else Except.ok (fun k => if k = this_ then some consumer else g k)

end Fuser

namespace Fuser

/-- A successful `computeAtEdge` call implies the cycle check was negative
and the result is the input graph with the single edge added. -/
theorem computeAtEdge_ok {n : Nat} {g g2 : Fin n → Option (Fin n)}
    {nd : Fin n → Nat} {compat : Fin n → Fin n → Nat → Bool}
    {a b : Fin n} {axis : Nat}
    (h : computeAtEdge g nd compat a b axis = Except.ok g2) :
    caReach g n b a = false
    ∧ g2 = fun k => if k = a then some b else g k := by
  unfold computeAtEdge at h
  split at h
  · exact absurd h (by simp)
  · split at h
    · exact absurd h (by simp)
    · split at h
      case isTrue hcy => exact absurd h (by simp)
      case isFalse hcy =>
        refine ⟨by simpa using hcy, ?_⟩
        injection h with h
        exact h.symm

/-- An edge extends a reachability chain on the left. -/
theorem caReach_step {n : Nat} {g : Fin n → Option (Fin n)} {fuel : Nat}
    {i j k : Fin n} (hij : g i = some j) (h : caReach g fuel j k = true) :
    caReach g (fuel + 1) i k = true := by
  simp [caReach, hij, h]

/-- Reachability is reflexive at every fuel. -/
theorem caReach_self {n : Nat} (g : Fin n → Option (Fin n)) (fuel : Nat)
    (i : Fin n) : caReach g fuel i i = true := by
  cases fuel <;> simp [caReach]

/-- Three distinct indices force the fusion to hold at least 3 TensorViews. -/
theorem three_le_of_distinct {n : Nat} {a b c : Fin n}
    (hab : a ≠ b) (hbc : b ≠ c) (hca : c ≠ a) : 3 ≤ n := by
  have hcard : ({a, b, c} : Finset (Fin n)).card = 3 := by
    rw [Finset.card_insert_of_not_mem (by simp [hab, Ne.symm hca]),
      Finset.card_insert_of_not_mem (by simp [hbc]), Finset.card_singleton]
  have hle : ({a, b, c} : Finset (Fin n)).card ≤ n := by
    simpa using Finset.card_le_univ ({a, b, c} : Finset (Fin n))
  omega

/-- Element lookup in an `A ++ x :: B` decomposition, by position relative to
the length of the prefix `A`. -/
theorem getElem?_append_cons {α : Type} (A B : List α) (x : α) (k : Nat) :
    (A ++ x :: B)[k]?
      = if k < A.length then A[k]?
        else if k = A.length then some x
        else B[k - A.length - 1]? := by
  rcases Nat.lt_or_ge k A.length with hk | hk
  · simp [List.getElem?_append_left hk, hk]
  · rw [List.getElem?_append_right hk]
    rcases Nat.eq_or_lt_of_le hk with heq | hlt
    · simp [← heq, Nat.sub_self, Nat.not_lt.mpr hk]
    · have h1 : ¬ k < A.length := Nat.not_lt.mpr hk
      have h2 : k ≠ A.length := Nat.ne_of_gt hlt
      obtain ⟨m, hm⟩ : ∃ m, k - A.length = m + 1 :=
        ⟨k - A.length - 1, by omega⟩
      simp [h1, h2, hm]

/-- Ceiling division, multiplied back by the divisor, recovers a dividend
that the divisor divides. -/
theorem ceilDiv_mul_self_of_dvd {e f : Nat} (hf : 0 < f) (hdvd : f ∣ e) :
    ceilDiv e f * f = e := by
  obtain ⟨c, rfl⟩ := hdvd
  unfold ceilDiv
  have h1 : f * c + f - 1 = (f - 1) + c * f := by
    have := Nat.mul_comm f c
    omega
  rw [h1, Nat.add_mul_div_right _ _ hf, Nat.div_eq_of_lt (by omega)]
  simp [Nat.mul_comm]

/-- C3: for an in-range axis and a positive factor, `split(axis, factor)`
replaces the leaf IterDomain at `axis` with two new ones — outer with extent
`ceil(extent / factor)`, inner with extent `factor`, both keeping the role —
leaving every other axis in place; and split fails whenever the axis is out
of range or the factor is zero. -/
theorem split_replaces_axis (td : List IterDomain) (axis factor : Nat)
    (h : axis < td.length) (hf : 0 < factor) :
    TensorDomain.split td axis factor
      = Except.ok (td.take axis
          ++ ⟨ceilDiv (td.getD axis default).extent factor,
                (td.getD axis default).itype⟩
          :: ⟨factor, (td.getD axis default).itype⟩ :: td.drop (axis + 1))
    ∧ (∀ td1, TensorDomain.split td axis factor = Except.ok td1 →
        td1.length = td.length + 1
        ∧ td1[axis]? = some ⟨ceilDiv (td.getD axis default).extent factor,
            (td.getD axis default).itype⟩
        ∧ td1[axis + 1]? = some ⟨factor, (td.getD axis default).itype⟩
        ∧ (∀ k, k < axis → td1[k]? = td[k]?)
        ∧ (∀ k, axis + 1 < k → td1[k]? = td[k - 1]?))
    ∧ (∀ td2 : List IterDomain, ∀ a f : Nat,
        td2.length ≤ a ∨ f = 0 →
        ∃ msg, TensorDomain.split td2 a f = Except.error msg) := by
  have hget : td.getD axis default = td.get ⟨axis, h⟩ := by
    simp [List.getD_eq_getElem?_getD, List.getElem?_eq_getElem h,
      List.get_eq_getElem]
  have hmain : TensorDomain.split td axis factor
      = Except.ok (td.take axis
          ++ ⟨ceilDiv (td.getD axis default).extent factor,
                (td.getD axis default).itype⟩
          :: ⟨factor, (td.getD axis default).itype⟩ :: td.drop (axis + 1)) := by
    rw [hget]
    simp [TensorDomain.split, Nat.pos_iff_ne_zero.mp hf, h]
  refine ⟨hmain, ?_, ?_⟩
  · intro td1 h1
    rw [hmain] at h1
    injection h1 with h1
    subst h1
    have hlt : (td.take axis).length = axis := by
      simp [List.length_take]
      omega
    refine ⟨?_, ?_, ?_, ?_, ?_⟩
    · simp [List.length_take, List.length_drop]
      omega
    · rw [getElem?_append_cons]
      simp [hlt]
    · rw [getElem?_append_cons]
      simp [hlt]
    · intro k hk
      rw [getElem?_append_cons]
      simp only [hlt, hk, if_true]
      rw [List.getElem?_take]
      simp [hk]
    · intro k hk
      rw [getElem?_append_cons]
      have h1 : ¬ k < axis := by omega
      have h2 : k ≠ axis := by omega
      simp only [hlt, h1, h2, if_false]
      obtain ⟨m, hm⟩ : ∃ m, k - axis - 1 = m + 1 := ⟨k - axis - 2, by omega⟩
      rw [hm]
      simp only [List.getElem?_cons_succ]
      rw [List.getElem?_drop]
      congr 1
      omega
  · intro td2 a f hfail
    rcases Nat.eq_zero_or_pos f with hf0 | hfpos
    · exact ⟨"Invalid factor for split", by simp [TensorDomain.split, hf0]⟩
    · rcases hfail with ha | hf0
      · refine ⟨"Split axis out of range", ?_⟩
        have : ¬ a < td2.length := by omega
        simp [TensorDomain.split, Nat.pos_iff_ne_zero.mp hfpos, this]
      · omega

/-- C3 witness: splitting axis 1 (extent 7, Reduction) of a concrete 2-axis
domain by factor 2 yields leaf `[⟨10⟩, ⟨4⟩, ⟨2⟩]`. -/
theorem split_replaces_axis_witness :
    (1 : Nat) < ([⟨10, IterType.Iteration⟩, ⟨7, IterType.Reduction⟩]
        : List IterDomain).length
    ∧ (0 : Nat) < 2
    ∧ TensorDomain.split
        [⟨10, IterType.Iteration⟩, ⟨7, IterType.Reduction⟩] 1 2
      = Except.ok [⟨10, IterType.Iteration⟩, ⟨4, IterType.Reduction⟩,
          ⟨2, IterType.Reduction⟩] :=
  ⟨by decide, by decide,
    ((split_replaces_axis
      [⟨10, IterType.Iteration⟩, ⟨7, IterType.Reduction⟩] 1 2
      (by decide) (by decide)).left).trans rfl⟩

/-- C7 counterexample: on a single axis of extent 10, `split(0, 4)` then
`merge(0, 1)` yields extent `ceil(10/4) * 4 = 12`, not the original 10: the
round trip does not restore the axis extent when the factor does not divide
it (nDims is restored). -/
theorem split_merge_roundtrip_cex :
    (TensorDomain.split [⟨10, IterType.Iteration⟩] 0 4).bind
        (fun td1 => TensorDomain.merge td1 0 1)
      = Except.ok [⟨12, IterType.Iteration⟩]
    ∧ (((12 : Nat) = 10) → False) :=
  ⟨rfl, by decide⟩

/-- C7 (amended): `split(axis, f)` then `merge(axis, axis+1)` always restores
the original `nDims()` and leaves every other axis untouched, but the axis
extent becomes `ceil(extent/f) * f`; the original extent is restored exactly
when `f` divides it. -/
theorem split_merge_roundtrip_amended (td : List IterDomain)
    (axis factor : Nat) (h : axis < td.length) (hf : 0 < factor) :
    ∃ td2,
      (TensorDomain.split td axis factor).bind
          (fun td1 => TensorDomain.merge td1 axis (axis + 1))
        = Except.ok td2
      ∧ td2.length = td.length
      ∧ td2[axis]? = some ⟨ceilDiv (td.getD axis default).extent factor * factor,
          (td.getD axis default).itype⟩
      ∧ (∀ k, k ≠ axis → td2[k]? = td[k]?)
      ∧ (factor ∣ (td.getD axis default).extent →
          td2[axis]? = some (td.getD axis default)) := by
  have hsplit := (split_replaces_axis td axis factor h hf).left
  set iD := td.getD axis default with hiD
  set A := td.take axis with hA
  set D := td.drop (axis + 1) with hD
  set o : IterDomain := ⟨ceilDiv iD.extent factor, iD.itype⟩ with ho
  set i : IterDomain := ⟨factor, iD.itype⟩ with hi
  have hAlen : A.length = axis := by
    simp [hA, List.length_take]
    omega
  have hl1len : (A ++ o :: i :: D).length = td.length + 1 := by
    simp [hD, List.length_drop]
    omega
  have hgo : (A ++ o :: i :: D)[axis]? = some o := by
    rw [getElem?_append_cons]
    simp [hAlen]
  have hgi : (A ++ o :: i :: D)[axis + 1]? = some i := by
    rw [getElem?_append_cons]
    simp [hAlen]
  have hbounds : axis < (A ++ o :: i :: D).length
      ∧ axis + 1 < (A ++ o :: i :: D).length := by
    rw [hl1len]
    omega
  have hgeto : (A ++ o :: i :: D).get ⟨axis, hbounds.left⟩ = o := by
    have := List.getElem?_eq_getElem hbounds.left
    rw [List.get_eq_getElem]
    rw [this] at hgo
    injection hgo
  have hgeti : (A ++ o :: i :: D).get ⟨axis + 1, hbounds.right⟩ = i := by
    have := List.getElem?_eq_getElem hbounds.right
    rw [List.get_eq_getElem]
    rw [this] at hgi
    injection hgi
  have hmerge : TensorDomain.merge (A ++ o :: i :: D) axis (axis + 1)
      = Except.ok (A ++ ⟨o.extent * i.extent, o.itype⟩ :: D) := by
    rw [TensorDomain.merge]
    rw [dif_pos hbounds]
    rw [if_pos rfl]
    rw [hgeto, hgeti]
    rw [if_pos rfl]
    congr 1
    have htake : (A ++ o :: i :: D).take axis = A := by
      rw [List.take_append_of_le_length (by omega)]
      simp [hA, List.take_take]
    have hdrop : (A ++ o :: i :: D).drop (axis + 1 + 1) = D := by
      have : axis + 1 + 1 = A.length + 2 := by omega
      rw [this, List.drop_append]
      rfl
    rw [htake, hdrop]
  refine ⟨A ++ ⟨o.extent * i.extent, o.itype⟩ :: D, ?_, ?_, ?_, ?_, ?_⟩
  · rw [hsplit]
    simpa using hmerge
  · simp [hA, hD, List.length_take, List.length_drop]
    omega
  · rw [getElem?_append_cons]
    simp [hAlen]
  · intro k hk
    rw [getElem?_append_cons]
    rcases Nat.lt_or_ge k axis with hlt | hge
    · simp only [hAlen, hlt, if_true]
      rw [hA, List.getElem?_take]
      simp [hlt]
    · have h1 : ¬ k < axis := by omega
      have h2 : k ≠ axis := hk
      simp only [hAlen, h1, h2, if_false]
      rw [hD, List.getElem?_drop]
      congr 1
      omega
  · intro hdvd
    rw [getElem?_append_cons]
    simp only [hAlen, Nat.lt_irrefl, if_false, if_pos rfl]
    have : o.extent * i.extent = iD.extent := by
      rw [ho, hi]
      exact ceilDiv_mul_self_of_dvd hf hdvd
    rw [this]
    cases iD
    rfl

/-- C7 amended witness: on a single axis of extent 10 with the divisible
factor 5, the round trip restores the original domain entry. -/
theorem split_merge_roundtrip_amended_witness :
    (0 : Nat) < ([⟨10, IterType.Iteration⟩] : List IterDomain).length
    ∧ (0 : Nat) < 5
    ∧ ∃ td2,
      (TensorDomain.split [⟨10, IterType.Iteration⟩] 0 5).bind
          (fun td1 => TensorDomain.merge td1 0 (0 + 1))
        = Except.ok td2
      ∧ td2.length = ([⟨10, IterType.Iteration⟩] : List IterDomain).length
      ∧ td2[0]? = some ⟨ceilDiv (([⟨10, IterType.Iteration⟩]
            : List IterDomain).getD 0 default).extent 5 * 5,
          (([⟨10, IterType.Iteration⟩] : List IterDomain).getD 0
            default).itype⟩
      ∧ (∀ k, k ≠ 0 → td2[k]?
          = ([⟨10, IterType.Iteration⟩] : List IterDomain)[k]?)
      ∧ ((5 : Nat) ∣ (([⟨10, IterType.Iteration⟩]
            : List IterDomain).getD 0 default).extent →
          td2[0]? = some (([⟨10, IterType.Iteration⟩]
            : List IterDomain).getD 0 default)) :=
  ⟨by decide, by decide,
    split_merge_roundtrip_amended [⟨10, IterType.Iteration⟩] 0 5
      (by decide) (by decide)⟩

/-- C4: establishing the compute-at edges A→B then B→C succeeds, and the
third call C.computeAt(A, ...) then fails (for every axis), because the
edge C→A would close a cycle; failure returns an error without touching the
recorded edges, so the compute-at relation stays acyclic. -/
theorem computeAt_cycle_rejected {n : Nat} (nd : Fin n → Nat)
    (compat : Fin n → Fin n → Nat → Bool) (a b c : Fin n)
    (hab : a ≠ b) (hbc : b ≠ c) (hca : c ≠ a)
    (k1 k2 : Nat) (g1 g2 : Fin n → Option (Fin n))
    (h1 : computeAtEdge (fun _ => none) nd compat a b k1 = Except.ok g1)
    (h2 : computeAtEdge g1 nd compat b c k2 = Except.ok g2) :
    ∀ k3 : Nat, ∃ msg, computeAtEdge g2 nd compat c a k3 = Except.error msg := by
  intro k3
  obtain ⟨-, hg1⟩ := computeAtEdge_ok h1
  obtain ⟨-, hg2⟩ := computeAtEdge_ok h2
  have hg2a : g2 a = some b := by
    rw [hg2]
    simp [hab, hg1]
  have hg2b : g2 b = some c := by
    rw [hg2]
    simp
  have hn3 : 3 ≤ n := three_le_of_distinct hab hbc hca
  have hreach : caReach g2 n a c = true := by
    obtain ⟨m, hm⟩ : ∃ m, n = m + 2 := ⟨n - 2, by omega⟩
    have hcongr : caReach g2 n a c = caReach g2 (m + 2) a c :=
      congrArg (fun f => caReach g2 f a c) hm
    rw [hcongr]
    exact caReach_step hg2a (caReach_step hg2b (caReach_self g2 m c))
  unfold computeAtEdge
  split
  · exact ⟨_, rfl⟩
  · split
    · exact ⟨_, rfl⟩
    · exact ⟨_, rfl⟩

/-- C4 witness: three concrete TensorViews 0, 1, 2 in a 3-TensorView fusion;
the calls 0.computeAt(1), 1.computeAt(2) succeed, and 2.computeAt(0) fails
at every axis. -/
theorem computeAt_cycle_rejected_witness :
    ((0 : Fin 3) ≠ 1) ∧ ((1 : Fin 3) ≠ 2) ∧ ((2 : Fin 3) ≠ 0)
    ∧ computeAtEdge (fun _ => none) (fun _ => 3) (fun _ _ _ => true)
        (0 : Fin 3) 1 1
      = Except.ok (fun k : Fin 3 => if k = 0 then some 1 else none)
    ∧ computeAtEdge (fun k : Fin 3 => if k = 0 then some 1 else none)
        (fun _ => 3) (fun _ _ _ => true) (1 : Fin 3) 2 1
      = Except.ok (fun k : Fin 3 => if k = 1 then some 2 else
          if k = 0 then some 1 else none)
    ∧ ∀ k3 : Nat, ∃ msg,
        computeAtEdge (fun k : Fin 3 => if k = 1 then some 2 else
            if k = 0 then some 1 else none)
          (fun _ => 3) (fun _ _ _ => true) (2 : Fin 3) 0 k3
        = Except.error msg := by
  have h1 : computeAtEdge (fun _ => none) (fun _ => 3) (fun _ _ _ => true)
      (0 : Fin 3) 1 1
      = Except.ok (fun k : Fin 3 => if k = 0 then some 1 else none) := by
    unfold computeAtEdge caReach
    simp [caReach]
  have h2 : computeAtEdge (fun k : Fin 3 => if k = 0 then some 1 else none)
      (fun _ => 3) (fun _ _ _ => true) (1 : Fin 3) 2 1
      = Except.ok (fun k : Fin 3 => if k = 1 then some 2 else
          if k = 0 then some 1 else none) := by
    unfold computeAtEdge caReach
    simp [caReach]
  exact ⟨by decide, by decide, by decide, h1, h2,
    computeAt_cycle_rejected (fun _ => 3) (fun _ _ _ => true) 0 1 2
      (by decide) (by decide) (by decide) 1 1 _ _ h1 h2⟩

/-- `find?` returns the element when it is the unique match in the list. -/
theorem find?_eq_some_of_unique {α : Type} {p : α → Bool} {l : List α}
    {a : α} (ha : a ∈ l) (hpa : p a = true)
    (huniq : ∀ b ∈ l, p b = true → b = a) : l.find? p = some a := by
  induction l with
  | nil => exact absurd ha (List.not_mem_nil a)
  | cons x xs ih =>
    cases hx : p x with
    | false =>
      have hax : a ∈ xs := by
        rcases List.mem_cons.mp ha with rfl | h
        · exact absurd hpa (by simp [hx])
        · exact h
      rw [List.find?_cons_of_neg _ (by simp [hx])]
      exact ih hax (fun b hb hpb => huniq b (List.mem_cons_of_mem x hb) hpb)
    | true =>
      rw [List.find?_cons_of_pos _ hx]
      exact congrArg some (huniq x (List.mem_cons_self x xs) hx)

/-- Getting at an in-range position with a fallback is plain indexing. -/
theorem getD_eq_getElem {α : Type} [Inhabited α] (l : List α) {i : Nat}
    (h : i < l.length) (d : α) : l.getD i d = l[i] := by
  simp [List.getD_eq_getElem?_getD, List.getElem?_eq_getElem h]

/-- An injective-on-range map yields a duplicate-free image of `range n`. -/
theorem nodup_map_range {f : Nat → Nat} {n : Nat}
    (hinj : ∀ i j, i < n → j < n → f i = f j → i = j) :
    ((List.range n).map f).Nodup :=
  List.Nodup.map_on
    (fun x hx y hy h =>
      hinj x y (List.mem_range.mp hx) (List.mem_range.mp hy) h)
    (List.nodup_range n)

/-- Under a range-bounded injective-on-range map, every target below `n` is
in the image of `range n` (pigeonhole). -/
theorem mem_map_range_of_lt {f : Nat → Nat} {n j : Nat}
    (hb : ∀ i, i < n → f i < n)
    (hinj : ∀ i j, i < n → j < n → f i = f j → i = j) (hj : j < n) :
    j ∈ (List.range n).map f := by
  have hnd : ((List.range n).map f).Nodup := nodup_map_range hinj
  have hlen : ((List.range n).map f).length = n := by simp
  have hsub : ((List.range n).map f).toFinset ⊆ Finset.range n := by
    intro x hx
    rw [List.mem_toFinset] at hx
    obtain ⟨i, him, rfl⟩ := List.mem_map.mp hx
    exact Finset.mem_range.mpr (hb i (List.mem_range.mp him))
  have hcard : ((List.range n).map f).toFinset.card = n := by
    rw [List.toFinset_card_of_nodup hnd, hlen]
  have heq : ((List.range n).map f).toFinset = Finset.range n :=
    Finset.eq_of_subset_of_card_le hsub (by rw [hcard]; simp)
  rw [← List.mem_toFinset, heq]
  exact Finset.mem_range.mpr hj

/-- The inverse index undoes the reorder map on `[0, n)`. -/
theorem invIdx_map {f : Nat → Nat} {n i : Nat} (hi : i < n)
    (hinj : ∀ i j, i < n → j < n → f i = f j → i = j) :
    TensorDomain.invIdx f n (f i) = i := by
  unfold TensorDomain.invIdx
  rw [find?_eq_some_of_unique (a := i) (List.mem_range.mpr hi) (by simp)
    (fun b hb hpb =>
      hinj b i (List.mem_range.mp hb) hi (by simpa using hpb))]
  rfl

/-- The inverse index of an in-range target is in range and maps back. -/
theorem invIdx_inv {f : Nat → Nat} {n j : Nat}
    (hb : ∀ i, i < n → f i < n)
    (hinj : ∀ i j, i < n → j < n → f i = f j → i = j) (hj : j < n) :
    TensorDomain.invIdx f n j < n ∧ f (TensorDomain.invIdx f n j) = j := by
  have hmem := mem_map_range_of_lt hb hinj hj
  obtain ⟨i0, hi0m, hi0e⟩ := List.mem_map.mp hmem
  have hsome : ((List.range n).find? (fun x => decide (f x = j))).isSome := by
    rw [List.find?_isSome]
    exact ⟨i0, hi0m, by simp [hi0e]⟩
  obtain ⟨a, ha⟩ := Option.isSome_iff_exists.mp hsome
  have hpa : f a = j := by simpa using List.find?_some ha
  have ham : a < n := List.mem_range.mp (List.mem_of_find?_eq_some ha)
  unfold TensorDomain.invIdx
  rw [ha]
  exact ⟨ham, hpa⟩

/-- A bounded injective-on-range map passes the bijection check. -/
theorem isPermOn_true {f : Nat → Nat} {n : Nat}
    (hb : ∀ i, i < n → f i < n)
    (hinj : ∀ i j, i < n → j < n → f i = f j → i = j) :
    TensorDomain.isPermOn f n = true := by
  unfold TensorDomain.isPermOn
  rw [Bool.and_eq_true, decide_eq_true_eq, decide_eq_true_eq]
  exact ⟨hb, nodup_map_range hinj⟩

/-- Reading every position of a list back in order reproduces the list. -/
theorem map_getD_range {α : Type} [Inhabited α] (l : List α) (d : α) :
    (List.range l.length).map (fun j => l.getD j d) = l := by
  apply List.ext_getElem (by simp)
  intro i h1 h2
  have hr : i < (List.range l.length).length := by simpa using h2
  rw [List.getElem_map]
  have : (List.range l.length)[i] = i := by simp
  rw [this, getD_eq_getElem l h2 d]

/-- C8: `reorder` with the identity mapping leaves the leaf domain
unchanged, and for a bijection `old2new` on `[0, nDims())`, applying
`reorder(old2new)` and then `reorder` with its inverse permutation restores
the original axis order. -/
theorem reorder_identity_and_inverse (td : List IterDomain) (f g : Nat → Nat)
    (hb : ∀ i, i < td.length → f i < td.length)
    (hinj : ∀ i j, i < td.length → j < td.length → f i = f j → i = j)
    (hg : ∀ i, i < td.length → g (f i) = i) :
    TensorDomain.reorder td (fun i => i) = Except.ok td
    ∧ ∃ td1, TensorDomain.reorder td f = Except.ok td1
        ∧ TensorDomain.reorder td1 g = Except.ok td := by
  have hidperm : TensorDomain.isPermOn (fun i => i) td.length = true :=
    isPermOn_true (fun i hi => hi) (fun i j _ _ h => h)
  have hid : TensorDomain.reorder td (fun i => i) = Except.ok td := by
    rw [TensorDomain.reorder, if_pos (by simp [hidperm])]
    congr 1
    have hcong : ∀ j ∈ List.range td.length,
        td.getD (TensorDomain.invIdx (fun i => i) td.length j) default
          = td.getD j default := by
      intro j hj
      rw [invIdx_map (f := fun i => i) (List.mem_range.mp hj)
        (fun i j _ _ h => h)]
    rw [List.map_congr_left hcong]
    exact map_getD_range td default
  have hperm : TensorDomain.isPermOn f td.length = true := isPermOn_true hb hinj
  have h1 : TensorDomain.reorder td f
      = Except.ok ((List.range td.length).map
          (fun j => td.getD (TensorDomain.invIdx f td.length j) default)) := by
    rw [TensorDomain.reorder, if_pos (by simp [hperm])]
  have htd1len : ((List.range td.length).map
      (fun j => td.getD (TensorDomain.invIdx f td.length j) default)).length
      = td.length := by simp
  have htd1get : ∀ j, j < td.length →
      ((List.range td.length).map
        (fun j => td.getD (TensorDomain.invIdx f td.length j) default))[j]?
      = some (td.getD (TensorDomain.invIdx f td.length j) default) := by
    intro j hj
    rw [List.getElem?_map]
    simp [List.getElem?_range hj]
  have hgb : ∀ j, j < td.length → g j < td.length := by
    intro j hj
    obtain ⟨hlt, heq⟩ := invIdx_inv hb hinj hj
    have h2 : g j = TensorDomain.invIdx f td.length j := by
      conv_lhs => rw [← heq]
      exact hg _ hlt
    rw [h2]
    exact hlt
  have hginj : ∀ j k, j < td.length → k < td.length → g j = g k → j = k := by
    intro j k hj hk hgeq
    obtain ⟨hltj, heqj⟩ := invIdx_inv hb hinj hj
    obtain ⟨hltk, heqk⟩ := invIdx_inv hb hinj hk
    have hj2 : g j = TensorDomain.invIdx f td.length j := by
      conv_lhs => rw [← heqj]
      exact hg _ hltj
    have hk2 : g k = TensorDomain.invIdx f td.length k := by
      conv_lhs => rw [← heqk]
      exact hg _ hltk
    rw [hj2, hk2] at hgeq
    rw [← heqj, ← heqk, hgeq]
  have hgperm : TensorDomain.isPermOn g td.length = true :=
    isPermOn_true hgb hginj
  refine ⟨hid, (List.range td.length).map
      (fun j => td.getD (TensorDomain.invIdx f td.length j) default),
    h1, ?_⟩
  rw [TensorDomain.reorder, htd1len, if_pos (by simp [hgperm])]
  congr 1
  have hinvg : ∀ k, k < td.length →
      TensorDomain.invIdx g td.length k = f k := by
    intro k hk
    have huniqg : ∀ b ∈ List.range td.length,
        decide (g b = k) = true → b = f k := by
      intro b hbmem hpb
      have hbn : b < td.length := List.mem_range.mp hbmem
      obtain ⟨hlt0, heq0⟩ := invIdx_inv hb hinj hbn
      have hgb2 : g b = TensorDomain.invIdx f td.length b := by
        conv_lhs => rw [← heq0]
        exact hg _ hlt0
      have hik : TensorDomain.invIdx f td.length b = k := by
        rw [← hgb2]
        simpa using hpb
      rw [← heq0, hik]
    unfold TensorDomain.invIdx
    rw [find?_eq_some_of_unique (a := f k)
      (List.mem_range.mpr (hb k hk)) (by simp [hg k hk]) huniqg]
    rfl
  have hcong : ∀ k ∈ List.range td.length,
      ((List.range td.length).map
        (fun j => td.getD (TensorDomain.invIdx f td.length j) default)).getD
        (TensorDomain.invIdx g td.length k) default
      = td.getD k default := by
    intro k hkm
    have hk : k < td.length := List.mem_range.mp hkm
    rw [hinvg k hk]
    have hfk : f k < td.length := hb k hk
    have hlen2 : f k < ((List.range td.length).map
        (fun j => td.getD (TensorDomain.invIdx f td.length j) default)).length := by
      rw [htd1len]
      exact hfk
    rw [getD_eq_getElem _ hlen2 default]
    have hsome := htd1get (f k) hfk
    rw [List.getElem?_eq_getElem hlen2] at hsome
    injection hsome with hsome
    rw [hsome, invIdx_map hk hinj]
  rw [List.map_congr_left hcong]
  exact map_getD_range td default

/-- C8 witness: a concrete 3-axis domain with the 3-cycle permutation
`0 → 1 → 2 → 0` and its inverse. -/
theorem reorder_identity_and_inverse_witness :
    (∀ i, i < ([⟨2, IterType.Iteration⟩, ⟨3, IterType.Reduction⟩,
        ⟨5, IterType.Broadcast⟩] : List IterDomain).length →
      (if i = 0 then 1 else if i = 1 then 2 else if i = 2 then 0 else i)
        < ([⟨2, IterType.Iteration⟩, ⟨3, IterType.Reduction⟩,
            ⟨5, IterType.Broadcast⟩] : List IterDomain).length)
    ∧ (∀ i j, i < ([⟨2, IterType.Iteration⟩, ⟨3, IterType.Reduction⟩,
          ⟨5, IterType.Broadcast⟩] : List IterDomain).length →
        j < ([⟨2, IterType.Iteration⟩, ⟨3, IterType.Reduction⟩,
          ⟨5, IterType.Broadcast⟩] : List IterDomain).length →
        (if i = 0 then 1 else if i = 1 then 2 else if i = 2 then 0 else i)
          = (if j = 0 then 1 else if j = 1 then 2 else if j = 2 then 0 else j)
        → i = j)
    ∧ (∀ i, i < ([⟨2, IterType.Iteration⟩, ⟨3, IterType.Reduction⟩,
          ⟨5, IterType.Broadcast⟩] : List IterDomain).length →
        (fun j => if j = 0 then 2 else if j = 1 then 0 else
            if j = 2 then 1 else j)
          ((fun i => if i = 0 then 1 else if i = 1 then 2 else
              if i = 2 then 0 else i) i) = i)
    ∧ (TensorDomain.reorder [⟨2, IterType.Iteration⟩, ⟨3, IterType.Reduction⟩,
          ⟨5, IterType.Broadcast⟩] (fun i => i)
        = Except.ok [⟨2, IterType.Iteration⟩, ⟨3, IterType.Reduction⟩,
            ⟨5, IterType.Broadcast⟩]
      ∧ ∃ td1, TensorDomain.reorder [⟨2, IterType.Iteration⟩,
            ⟨3, IterType.Reduction⟩, ⟨5, IterType.Broadcast⟩]
            (fun i => if i = 0 then 1 else if i = 1 then 2 else
              if i = 2 then 0 else i)
          = Except.ok td1
        ∧ TensorDomain.reorder td1
            (fun j => if j = 0 then 2 else if j = 1 then 0 else
              if j = 2 then 1 else j)
          = Except.ok [⟨2, IterType.Iteration⟩, ⟨3, IterType.Reduction⟩,
              ⟨5, IterType.Broadcast⟩]) :=
  by
  have hinj : ∀ i j : Nat,
      i < ([⟨2, IterType.Iteration⟩, ⟨3, IterType.Reduction⟩,
        ⟨5, IterType.Broadcast⟩] : List IterDomain).length →
      j < ([⟨2, IterType.Iteration⟩, ⟨3, IterType.Reduction⟩,
        ⟨5, IterType.Broadcast⟩] : List IterDomain).length →
      (if i = 0 then 1 else if i = 1 then 2 else if i = 2 then 0 else i)
        = (if j = 0 then 1 else if j = 1 then 2 else if j = 2 then 0 else j)
      → i = j := by
    have h : ∀ i : Nat, i < 3 → ∀ j : Nat, j < 3 →
        ((if i = 0 then 1 else if i = 1 then 2 else if i = 2 then 0 else i)
          = (if j = 0 then 1 else if j = 1 then 2 else if j = 2 then 0 else j)
        → i = j) := by decide
    exact fun i j hi hj => h i hi j hj
  exact ⟨by decide, hinj, by decide,
    reorder_identity_and_inverse
      [⟨2, IterType.Iteration⟩, ⟨3, IterType.Reduction⟩,
        ⟨5, IterType.Broadcast⟩]
      (fun i => if i = 0 then 1 else if i = 1 then 2 else
        if i = 2 then 0 else i)
      (fun j => if j = 0 then 2 else if j = 1 then 0 else
        if j = 2 then 1 else j)
      (by decide) hinj (by decide)⟩

/-- C6: for a non-empty set of in-range Reduction-role positions, `rFactor`
succeeds: the consumer leaf keeps exactly the positions outside `axes`
unchanged (so its reduction axes are the original reductions not factored
out), and the producer domain has the same length as the original, keeps
every extent, keeps the factored axes as its only Reduction axes, and leaves
non-reduction axes untouched; `rFactor` fails on an empty axis set, an
out-of-range index, or a non-Reduction axis. -/
theorem rFactor_spec (td : List IterDomain) (axes : List Nat)
    (hne : axes ≠ [])
    (hrange : ∀ a ∈ axes, a < td.length)
    (hred : ∀ a ∈ axes, (td.getD a default).itype = IterType.Reduction) :
    (∃ producer consumer,
      TensorDomain.rFactor td axes = Except.ok (producer, consumer)
      ∧ producer.length = td.length
      ∧ (∀ i, i < td.length → ∃ pi,
          producer[i]? = some pi
          ∧ pi.extent = (td.getD i default).extent
          ∧ (pi.itype = IterType.Reduction ↔ i ∈ axes)
          ∧ (i ∈ axes → pi = td.getD i default)
          ∧ ((td.getD i default).itype ≠ IterType.Reduction →
              pi = td.getD i default))
      ∧ consumer = ((List.range td.length).filter
          (fun i => decide (i ∉ axes))).map (fun i => td.getD i default))
    ∧ (∀ td2 : List IterDomain, ∃ msg,
        TensorDomain.rFactor td2 [] = Except.error msg)
    ∧ (∀ td2 : List IterDomain, ∀ axes2 : List Nat,
        (∃ a ∈ axes2, td2.length ≤ a) →
        ∃ msg, TensorDomain.rFactor td2 axes2 = Except.error msg)
    ∧ (∀ td2 : List IterDomain, ∀ axes2 : List Nat,
        (∀ a ∈ axes2, a < td2.length) →
        (∃ a ∈ axes2, (td2.getD a default).itype ≠ IterType.Reduction) →
        ∃ msg, TensorDomain.rFactor td2 axes2 = Except.error msg) := by
  refine ⟨?_, ?_, ?_, ?_⟩
  · have h1 : axes.isEmpty = false := by
      cases axes with
      | nil => exact absurd rfl hne
      | cons a l => rfl
    have h2 : axes.all (fun a => decide (a < td.length)) = true :=
      List.all_eq_true.mpr (fun a ha => by simpa using hrange a ha)
    have h3 : axes.all (fun a =>
        decide ((td.getD a default).itype = IterType.Reduction)) = true :=
      List.all_eq_true.mpr (fun a ha => by simpa using hred a ha)
    refine ⟨(List.range td.length).map (TensorDomain.rFactorEntry td axes),
      ((List.range td.length).filter (fun i => decide (i ∉ axes))).map
        (fun i => td.getD i default), ?_, ?_, ?_, rfl⟩
    · unfold TensorDomain.rFactor
      rw [h1, if_neg Bool.false_ne_true, h2, Bool.not_true,
        if_neg Bool.false_ne_true, h3, Bool.not_true,
        if_neg Bool.false_ne_true]
    · simp
    · intro i hi
      refine ⟨TensorDomain.rFactorEntry td axes i, ?_, ?_⟩
      · rw [List.getElem?_map]
        simp [List.getElem?_range hi]
      · by_cases hmem : i ∈ axes
        · have hpi : TensorDomain.rFactorEntry td axes i = td.getD i default := by
            unfold TensorDomain.rFactorEntry
            rw [if_pos hmem]
          rw [hpi]
          exact ⟨rfl, ⟨fun _ => hmem, fun _ => hred i hmem⟩,
            fun _ => rfl, fun _ => rfl⟩
        · by_cases hit : (td.getD i default).itype = IterType.Reduction
          · have hpi : TensorDomain.rFactorEntry td axes i
                = ⟨(td.getD i default).extent, IterType.Iteration⟩ := by
              unfold TensorDomain.rFactorEntry
              rw [if_neg hmem, if_pos hit]
            rw [hpi]
            exact ⟨rfl, ⟨fun h => IterType.noConfusion h,
                fun h => absurd h hmem⟩,
              fun h => absurd h hmem, fun h => absurd hit h⟩
          · have hpi : TensorDomain.rFactorEntry td axes i
                = td.getD i default := by
              unfold TensorDomain.rFactorEntry
              rw [if_neg hmem, if_neg hit]
            rw [hpi]
            exact ⟨rfl, ⟨fun h => absurd h hit, fun h => absurd h hmem⟩,
              fun h => absurd h hmem, fun _ => rfl⟩
  · intro td2
    exact ⟨"rFactor requires at least one axis", rfl⟩
  · intro td2 axes2 ⟨a, ha, hge⟩
    have h1 : axes2.isEmpty = false := by
      cases axes2 with
      | nil => exact absurd ha (List.not_mem_nil a)
      | cons x l => rfl
    have h2 : axes2.all (fun x => decide (x < td2.length)) = false := by
      rw [← Bool.not_eq_true, List.all_eq_true]
      intro hall
      have h := hall a ha
      simp only [decide_eq_true_eq] at h
      omega
    refine ⟨"rFactor axis out of range", ?_⟩
    unfold TensorDomain.rFactor
    rw [h1, if_neg Bool.false_ne_true, h2, Bool.not_false, if_pos rfl]
  · intro td2 axes2 hall ⟨a, ha, hnr⟩
    have h1 : axes2.isEmpty = false := by
      cases axes2 with
      | nil => exact absurd ha (List.not_mem_nil a)
      | cons x l => rfl
    have h2 : axes2.all (fun x => decide (x < td2.length)) = true :=
      List.all_eq_true.mpr (fun x hx => by simpa using hall x hx)
    have h3 : axes2.all (fun x =>
        decide ((td2.getD x default).itype = IterType.Reduction)) = false := by
      rw [← Bool.not_eq_true, List.all_eq_true]
      intro hall2
      have h := hall2 a ha
      simp only [decide_eq_true_eq] at h
      exact hnr h
    refine ⟨"rFactor axis must be a reduction axis", ?_⟩
    unfold TensorDomain.rFactor
    rw [h1, if_neg Bool.false_ne_true, h2, Bool.not_true,
      if_neg Bool.false_ne_true, h3, Bool.not_false, if_pos rfl]

/-- C6 witness: the header's worked example `TV1[I0, R1, R2, I3]` with
`rFactor({1})`. -/
theorem rFactor_spec_witness :
    (([1] : List Nat) ≠ [])
    ∧ (∀ a ∈ ([1] : List Nat),
        a < ([⟨8, IterType.Iteration⟩, ⟨4, IterType.Reduction⟩,
          ⟨5, IterType.Reduction⟩, ⟨3, IterType.Iteration⟩]
          : List IterDomain).length)
    ∧ (∀ a ∈ ([1] : List Nat),
        (([⟨8, IterType.Iteration⟩, ⟨4, IterType.Reduction⟩,
          ⟨5, IterType.Reduction⟩, ⟨3, IterType.Iteration⟩]
          : List IterDomain).getD a default).itype = IterType.Reduction)
    ∧ ((∃ producer consumer,
        TensorDomain.rFactor [⟨8, IterType.Iteration⟩, ⟨4, IterType.Reduction⟩,
            ⟨5, IterType.Reduction⟩, ⟨3, IterType.Iteration⟩] [1]
          = Except.ok (producer, consumer)
        ∧ producer.length = ([⟨8, IterType.Iteration⟩, ⟨4, IterType.Reduction⟩,
            ⟨5, IterType.Reduction⟩, ⟨3, IterType.Iteration⟩]
            : List IterDomain).length
        ∧ (∀ i, i < ([⟨8, IterType.Iteration⟩, ⟨4, IterType.Reduction⟩,
            ⟨5, IterType.Reduction⟩, ⟨3, IterType.Iteration⟩]
            : List IterDomain).length → ∃ pi,
            producer[i]? = some pi
            ∧ pi.extent = (([⟨8, IterType.Iteration⟩, ⟨4, IterType.Reduction⟩,
                ⟨5, IterType.Reduction⟩, ⟨3, IterType.Iteration⟩]
                : List IterDomain).getD i default).extent
            ∧ (pi.itype = IterType.Reduction ↔ i ∈ ([1] : List Nat))
            ∧ (i ∈ ([1] : List Nat) →
                pi = ([⟨8, IterType.Iteration⟩, ⟨4, IterType.Reduction⟩,
                  ⟨5, IterType.Reduction⟩, ⟨3, IterType.Iteration⟩]
                  : List IterDomain).getD i default)
            ∧ ((([⟨8, IterType.Iteration⟩, ⟨4, IterType.Reduction⟩,
                ⟨5, IterType.Reduction⟩, ⟨3, IterType.Iteration⟩]
                : List IterDomain).getD i default).itype ≠ IterType.Reduction →
                pi = ([⟨8, IterType.Iteration⟩, ⟨4, IterType.Reduction⟩,
                  ⟨5, IterType.Reduction⟩, ⟨3, IterType.Iteration⟩]
                  : List IterDomain).getD i default))
        ∧ consumer = ((List.range ([⟨8, IterType.Iteration⟩,
              ⟨4, IterType.Reduction⟩, ⟨5, IterType.Reduction⟩,
              ⟨3, IterType.Iteration⟩] : List IterDomain).length).filter
            (fun i => decide (i ∉ ([1] : List Nat)))).map
            (fun i => ([⟨8, IterType.Iteration⟩, ⟨4, IterType.Reduction⟩,
              ⟨5, IterType.Reduction⟩, ⟨3, IterType.Iteration⟩]
              : List IterDomain).getD i default))
      ∧ (∀ td2 : List IterDomain, ∃ msg,
          TensorDomain.rFactor td2 [] = Except.error msg)
      ∧ (∀ td2 : List IterDomain, ∀ axes2 : List Nat,
          (∃ a ∈ axes2, td2.length ≤ a) →
          ∃ msg, TensorDomain.rFactor td2 axes2 = Except.error msg)
      ∧ (∀ td2 : List IterDomain, ∀ axes2 : List Nat,
          (∀ a ∈ axes2, a < td2.length) →
          (∃ a ∈ axes2, (td2.getD a default).itype ≠ IterType.Reduction) →
          ∃ msg, TensorDomain.rFactor td2 axes2 = Except.error msg)) :=
  ⟨by decide, by decide, by decide,
    rFactor_spec [⟨8, IterType.Iteration⟩, ⟨4, IterType.Reduction⟩,
        ⟨5, IterType.Reduction⟩, ⟨3, IterType.Iteration⟩] [1]
      (by decide) (by decide) (by decide)⟩

/-- C9: two constants of the same scalar kind are `sameAs` exactly when
their literal values are equal; when either operand is symbolic, `sameAs`
holds exactly when both operands are the very same allocation, so a symbolic
node is `sameAs` only to itself. -/
theorem sameAs_const_and_symbolic {α : Type} [DecidableEq α]
    (a b : ScalarVal α) (harena : a.id = b.id → a = b) :
    (a.isConst = true → b.isConst = true →
      (ScalarVal.sameAs a b = true ↔ a.value = b.value))
    ∧ ((a.isSymbolic = true ∨ b.isSymbolic = true) →
      (ScalarVal.sameAs a b = true ↔ a = b)) := by
  constructor
  · intro hca hcb
    simp [ScalarVal.sameAs, hca, hcb, ScalarVal.value]
  · intro hsym
    have hnc : (a.isConst && b.isConst) = false := by
      rcases hsym with h | h
      · have : a.isConst = false := by
          simpa [ScalarVal.isSymbolic, ScalarVal.isConst] using h
        simp [this]
      · have : b.isConst = false := by
          simpa [ScalarVal.isSymbolic, ScalarVal.isConst] using h
        simp [this]
    rw [ScalarVal.sameAs, hnc]
    simp only [Bool.false_eq_true, if_false, decide_eq_true_eq]
    constructor
    · exact harena
    · intro h
      rw [h]

/-- C9 witness: a symbolic Int node (id 3) compared with itself. -/
theorem sameAs_const_and_symbolic_witness :
    ((ScalarVal.mk 3 none : ScalarVal Int).id
        = (ScalarVal.mk 3 none : ScalarVal Int).id
      → (ScalarVal.mk 3 none : ScalarVal Int)
        = (ScalarVal.mk 3 none : ScalarVal Int))
    ∧ (((ScalarVal.mk 3 none : ScalarVal Int).isConst = true →
        (ScalarVal.mk 3 none : ScalarVal Int).isConst = true →
        (ScalarVal.sameAs (ScalarVal.mk 3 none : ScalarVal Int)
            (ScalarVal.mk 3 none) = true
          ↔ (ScalarVal.mk 3 none : ScalarVal Int).value
            = (ScalarVal.mk 3 none : ScalarVal Int).value))
      ∧ (((ScalarVal.mk 3 none : ScalarVal Int).isSymbolic = true
          ∨ (ScalarVal.mk 3 none : ScalarVal Int).isSymbolic = true) →
        (ScalarVal.sameAs (ScalarVal.mk 3 none : ScalarVal Int)
            (ScalarVal.mk 3 none) = true
          ↔ (ScalarVal.mk 3 none : ScalarVal Int)
            = (ScalarVal.mk 3 none : ScalarVal Int)))) :=
  ⟨fun _ => rfl,
    sameAs_const_and_symbolic (ScalarVal.mk 3 none) (ScalarVal.mk 3 none)
      (fun _ => rfl)⟩

/-- C2 counterexample: `setMemoryType` on a fusion-input TensorView with a
non-global tag does fail, but it does NOT leave the prior state untouched:
the body assigns `memory_type_ = mt` before the membership check, so after
the failing call the field holds `Shared`, not its prior value `Global`. -/
theorem setMemoryType_not_atomic_cex :
    (TensorView.setMemoryType true false
        (TensorView.newTensorView 1 [⟨8, IterType.Iteration⟩]) MemoryType.Shared).snd = true
    ∧ (TensorView.setMemoryType true false
        (TensorView.newTensorView 1 [⟨8, IterType.Iteration⟩]) MemoryType.Shared).fst.memory_type
        = MemoryType.Shared
    ∧ (TensorView.newTensorView 1 [⟨8, IterType.Iteration⟩]).memory_type
        = MemoryType.Global := by
  refine ⟨rfl, rfl, rfl⟩

/-- C2 (amended): `setMemoryType(mt)` fails exactly when the TensorView is a
fusion input or output and `mt` is not the global tag; but the call always
commits `memory_type_ = mt` first, so on failure the field holds the NEW
value `mt`, not the value from before the call. -/
theorem setMemoryType_sets_then_checks {n : Nat} (hin hout : Bool)
    (tv : TensorView n) (mt : MemoryType) :
    (TensorView.setMemoryType hin hout tv mt).fst.memory_type = mt
    ∧ ((TensorView.setMemoryType hin hout tv mt).snd = true
        ↔ ((hin || hout) = true ∧ mt ≠ MemoryType.Global)) := by
  constructor
  · rfl
  · simp [TensorView.setMemoryType]

/-- C10: a freshly constructed TensorView has memory type Global, no
compute-at relation (`hasComputeAt()` false, `getComputeAtView()` null) and
both compute-at axes equal to 0; and `clearComputeAt()` restores exactly this
no-compute-at state while leaving the domain and memory type untouched. -/
theorem fresh_and_clearComputeAt_state {n : Nat} (dom : List IterDomain)
    (tv : TensorView n) :
    (TensorView.newTensorView n dom).memory_type = MemoryType.Global
    ∧ (TensorView.newTensorView n dom).hasComputeAt = false
    ∧ (TensorView.newTensorView n dom).getComputeAtView = none
    ∧ (TensorView.newTensorView n dom).getThisComputeAtAxis = 0
    ∧ (TensorView.newTensorView n dom).getRelativeComputeAtAxis = 0
    ∧ tv.clearComputeAt.hasComputeAt = false
    ∧ tv.clearComputeAt.getComputeAtView = none
    ∧ tv.clearComputeAt.getThisComputeAtAxis = 0
    ∧ tv.clearComputeAt.getRelativeComputeAtAxis = 0
    ∧ tv.clearComputeAt.domain = tv.domain
    ∧ tv.clearComputeAt.memory_type = tv.memory_type := by
  refine ⟨rfl, rfl, rfl, rfl, rfl, rfl, rfl, rfl, rfl, rfl, rfl⟩

/-- C1: for a TensorView with `nDims() > 0`, `getComputeAtAxis(pos)` returns
`(axis(pos), this)` when there is no compute-at relation or
`pos ≥ getThisComputeAtAxis()`, and otherwise recurses into
`compute_at_view->getComputeAtAxis(getComputeAtRelPos(pos))`. -/
theorem getComputeAtAxis_policy {n : Nat} (sys : FusionGraph n)
    (relPos : Fin n → Nat → Nat) (fuel : Nat) (i : Fin n) (pos : Nat)
    (hdim : 0 < (sys.tvs i).nDims) :
    (((sys.tvs i).compute_at_view = none
        ∨ (sys.tvs i).getThisComputeAtAxis ≤ pos) →
      getComputeAtAxis sys relPos (fuel + 1) i pos
        = CAResult.ok ((sys.tvs i).axisAt pos) i)
    ∧ (∀ j : Fin n, (sys.tvs i).compute_at_view = some j →
        pos < (sys.tvs i).getThisComputeAtAxis →
      getComputeAtAxis sys relPos (fuel + 1) i pos
        = getComputeAtAxis sys relPos fuel j (relPos i pos)) := by
  constructor
  · intro h
    rcases h with h | h
    · simp [getComputeAtAxis, Nat.pos_iff_ne_zero.mp hdim, h]
    · simp only [getComputeAtAxis, Nat.pos_iff_ne_zero.mp hdim, if_false]
      rcases hcv : (sys.tvs i).compute_at_view with _ | j
      · simp
      · simp only [TensorView.getThisComputeAtAxis] at h
        simp [h]
  · intro j hj hlt
    simp only [getComputeAtAxis, Nat.pos_iff_ne_zero.mp hdim, if_false, hj]
    have hn : ¬ (sys.tvs i).this_compute_at_axis ≤ pos := Nat.not_le.mpr hlt
    simp [hn]

/-- C1 witness: a concrete two-TensorView fusion where TV0 computes at TV1
with `this_compute_at_axis = 2`; position 2 resolves locally on TV0, and
position 0 steps into TV1. -/
theorem getComputeAtAxis_policy_witness :
    (0 : Nat) < ((FusionGraph.mk (n := 2) (fun i =>
        if i = 0 then
          { domain := [⟨8, IterType.Iteration⟩, ⟨4, IterType.Iteration⟩,
              ⟨4, IterType.Iteration⟩],
            compute_at_view := some 1, this_compute_at_axis := 2 }
        else { domain := [⟨8, IterType.Iteration⟩, ⟨16, IterType.Iteration⟩] })).tvs
        0).nDims
    ∧ getComputeAtAxis (FusionGraph.mk (n := 2) (fun i =>
        if i = 0 then
          { domain := [⟨8, IterType.Iteration⟩, ⟨4, IterType.Iteration⟩,
              ⟨4, IterType.Iteration⟩],
            compute_at_view := some 1, this_compute_at_axis := 2 }
        else { domain := [⟨8, IterType.Iteration⟩, ⟨16, IterType.Iteration⟩] }))
        (fun _ p => p) 2 0 2
      = CAResult.ok (some ⟨4, IterType.Iteration⟩) 0
    ∧ getComputeAtAxis (FusionGraph.mk (n := 2) (fun i =>
        if i = 0 then
          { domain := [⟨8, IterType.Iteration⟩, ⟨4, IterType.Iteration⟩,
              ⟨4, IterType.Iteration⟩],
            compute_at_view := some 1, this_compute_at_axis := 2 }
        else { domain := [⟨8, IterType.Iteration⟩, ⟨16, IterType.Iteration⟩] }))
        (fun _ p => p) 2 0 0
      = getComputeAtAxis (FusionGraph.mk (n := 2) (fun i =>
        if i = 0 then
          { domain := [⟨8, IterType.Iteration⟩, ⟨4, IterType.Iteration⟩,
              ⟨4, IterType.Iteration⟩],
            compute_at_view := some 1, this_compute_at_axis := 2 }
        else { domain := [⟨8, IterType.Iteration⟩, ⟨16, IterType.Iteration⟩] }))
        (fun _ p => p) 1 1 0 := by
  refine ⟨by decide, ?_, ?_⟩
  · exact ((getComputeAtAxis_policy _ (fun _ p => p) 1 0 2 (by decide)).left
      (Or.inr (by decide)))
  · exact ((getComputeAtAxis_policy _ (fun _ p => p) 1 0 0 (by decide)).right
      1 (by decide) (by decide))

/-- C5: if the compute-at edges admit a rank function that strictly decreases
along every edge (the acyclicity invariant), then `getComputeAtAxis` never
exhausts its fuel once the fuel exceeds the rank of the starting TensorView:
the chain of recursive calls through `compute_at_view_` is finite. -/
theorem getComputeAtAxis_terminates {n : Nat} (sys : FusionGraph n)
    (relPos : Fin n → Nat → Nat) (rank : Fin n → Nat)
    (hacyc : ∀ i j : Fin n, (sys.tvs i).compute_at_view = some j →
      rank j < rank i)
    (fuel : Nat) (i : Fin n) (pos : Nat) (hfuel : rank i < fuel) :
    getComputeAtAxis sys relPos fuel i pos ≠ CAResult.outOfFuel := by
  induction fuel generalizing i pos with
  | zero => exact absurd hfuel (Nat.not_lt_zero _)
  | succ f ih =>
    simp only [getComputeAtAxis]
    rcases hd : (sys.tvs i).nDims with _ | d
    · simp [hd]
    · simp only [hd, Nat.succ_ne_zero, if_false]
      rcases hcv : (sys.tvs i).compute_at_view with _ | j
      · simp
      · rcases Nat.lt_or_ge pos (sys.tvs i).this_compute_at_axis with hgt | hle
        · have hrank : rank j < f := by
            have h1 := hacyc i j hcv
            omega
          simp only [Nat.not_le.mpr hgt, if_false]
          exact ih j (relPos i pos) hrank
        · simp [hle]

/-- C5 witness: a two-TensorView fusion with the single edge TV0 → TV1 and
ranks 1, 0; resolution with fuel 2 does not run out of fuel. -/
theorem getComputeAtAxis_terminates_witness :
    (∀ i j : Fin 2, ((FusionGraph.mk (n := 2) (fun i =>
        if i = 0 then
          { domain := [⟨8, IterType.Iteration⟩],
            compute_at_view := some 1, this_compute_at_axis := 1 }
        else { domain := [⟨8, IterType.Iteration⟩] })).tvs i).compute_at_view
          = some j →
      (if j = (0 : Fin 2) then 1 else 0) < (if i = (0 : Fin 2) then 1 else 0))
    ∧ getComputeAtAxis (FusionGraph.mk (n := 2) (fun i =>
        if i = 0 then
          { domain := [⟨8, IterType.Iteration⟩],
            compute_at_view := some 1, this_compute_at_axis := 1 }
        else { domain := [⟨8, IterType.Iteration⟩] }))
        (fun _ p => p) 2 0 0 ≠ CAResult.outOfFuel := by
  refine ⟨by decide, ?_⟩
  exact getComputeAtAxis_terminates _ (fun _ p => p)
    (fun i => if i = 0 then 1 else 0) (by decide) 2 0 0 (by decide)

end Fuser
